import Mathlib

/-!
Shallow embedding of the SmartSearchAPI proxy server (src/server.js).

The embedding covers the parts of the program the claims are about:
the bearer-token lifecycle (`parseExpiresIn`, `getBearer`), the candidate
list construction (`buildCandidateList`), the sequential attempt loop of
the `/proxy/:resource` and `/proxy/:resource/:id` routes, and the
`/debug/auth` diagnostic endpoint.

Modelling conventions:
* Outbound HTTP is a black box, as in the spec: the login exchange is an
  oracle value (`LoginOutcome`), candidate fetches are an oracle function
  `Url -> FetchResult`, and the JS `Date.parse` builtin is an oracle
  function `String -> Option Int` (milliseconds since epoch).
* `Date.now()` is a single instant `now : Int` per handler invocation.
* JS values that reach `parseExpiresIn` are modelled by `JSValue`, with JS
  truthiness made explicit.
* URLs are structural: a path (the part after the vendor base URL, which
  is a fixed constant) plus an ordered list of query parameters, mirroring
  `new URL(...)` + `searchParams.set`.
* The OData discovery helper (`discoverEntitySets`, best-effort, failures
  swallowed) is abstracted to the list of names it returns, supplied by
  the environment; its outbound traffic is recorded as one `discovery`
  call marker.  No claim depends on its internals.
-/

namespace SmartSearch

/-- The fixed allow-list of logical resources (`ALLOW_LIST` in src/server.js). -/
def ALLOW_LIST : List String :=
  ["applicants", "businesses", "candidates", "contacts", "documents",
   "hires", "jobs", "notes", "offers", "projects"]

/-- A JS value as it can appear in the `expiresIn` field of the login
response: absent/null, a number, or a string. -/
inductive JSValue where
  | jnull
  | jnum (n : Int)
  | jstr (s : String)
deriving Repr, DecidableEq

/-- JS truthiness for `JSValue` (`!value` in the source): null/undefined,
the number 0 and the empty string are falsy. -/
def truthy : JSValue → Bool
  | .jnull => false
  | .jnum n => n != 0
  | .jstr s => s != ""

/-- JS `String(value)` coercion. -/
def jsToString : JSValue → String
  | .jnull => "null"
  | .jnum n => toString n
  | .jstr s => s

/-- Whether a string consists of one or more decimal digits
(the regex test in `parseExpiresIn`). -/
def isAllDigits (s : String) : Bool :=
  s != "" && s.all (fun c => c.isDigit)

/-- `/^\d+$/.test(String(value))`: for a number this holds exactly when it
is a non-negative integer (whose decimal rendering is pure digits); for a
string it is the digit test on the string itself. -/
def matchesDigits : JSValue → Bool
  | .jnull => false
  | .jnum n => decide (0 ≤ n)
  | .jstr s => isAllDigits s

/-- `Number(value)` in the branch where the digit test has passed. -/
def jsNumberOfDigits : JSValue → Int
  | .jnull => 0
  | .jnum n => n
  | .jstr s => ((s.toNat?).getD 0 : Nat)

/-- `parseExpiresIn` (src/server.js lines 42-47): falsy input gives null;
a digit-only value is seconds, scaled to ms; otherwise `Date.parse` is
tried and, when it succeeds, the remaining lifetime `d - Date.now()` is
returned; an unparseable value gives null. -/
def parseExpiresIn (dateParse : String → Option Int) (now : Int) (value : JSValue) :
    Option Int :=
  if truthy value = false then none
  else if matchesDigits value then some (jsNumberOfDigits value * 1000)
  else
    match dateParse (jsToString value) with
    | none => none
    | some d => some (d - now)

/-- The module-level bearer cache (`bearer`, `bearerExpiresAt`). -/
structure TokenState where
  bearer : Option String
  bearerExpiresAt : Int
deriving Repr, DecidableEq

/-- The configured credentials; `none` or the empty string are both falsy
in the missing-credentials check. -/
structure Creds where
  apiKey : Option String
  user : Option String
  pass : Option String
deriving Repr, DecidableEq

/-- JS truthiness of an optional string (a possibly-absent env variable or
JSON field). -/
def truthyStr : Option String → Bool
  | none => false
  | some s => s != ""

/-- The login response as seen by `getBearer` after `r.text()` and
`safeJson`: HTTP status, raw text, the (possibly missing) `accessToken`
field, and the `expiresIn` field. -/
structure LoginReply where
  status : Nat
  text : String
  accessToken : Option String
  expiresIn : JSValue
deriving Repr, DecidableEq

/-- Outcome of the outbound login POST: a transport-level throw, or a
reply. -/
inductive LoginOutcome where
  | threw
  | reply (r : LoginReply)
deriving Repr, DecidableEq

/-- `response.ok` of the fetch API: status in the range 200-299. -/
def statusOk (s : Nat) : Bool :=
  200 ≤ s && s ≤ 299

/-- The errors `getBearer` can throw. -/
inductive BearerError where
  | missingCreds
  | authFailed (status : Nat) (text : String)
  | missingToken (text : String)
  | transport
deriving Repr, DecidableEq

/-- Result of one `getBearer` call. -/
inductive BearerResult where
  | ok (token : String)
  | error (e : BearerError)
deriving Repr, DecidableEq

/-- One `getBearer` call: its result, the token cache afterwards, and
whether an outbound login request was issued. -/
structure BearerStep where
  result : BearerResult
  state : TokenState
  loginCalled : Bool
deriving Repr, DecidableEq

/-- The fixed early-refresh margin (`skew = 120000` ms). -/
def SKEW_MS : Int := 120000

/-- The fallback token lifetime (`30 * 60 * 1000` ms). -/
def FALLBACK_MS : Int := 30 * 60 * 1000

/-- `getBearer` (src/server.js lines 50-74).  Cache hit when a token is
cached (truthy) and `now < bearerExpiresAt - skew`; otherwise the
configured credentials are checked and a login exchange is performed, and
on success the cache is overwritten with the new token and
`now + (parseExpiresIn(expiresIn) ?? 30min)`. -/
def getBearer (creds : Creds) (login : LoginOutcome) (dateParse : String → Option Int)
    (now : Int) (st : TokenState) : BearerStep :=
  if truthyStr st.bearer = true ∧ now < st.bearerExpiresAt - SKEW_MS then
    { result := .ok (st.bearer.getD ""), state := st, loginCalled := false }
  else if (truthyStr creds.apiKey && truthyStr creds.user && truthyStr creds.pass) = false then
    { result := .error .missingCreds, state := st, loginCalled := false }
  else
    match login with
    | .threw => { result := .error .transport, state := st, loginCalled := true }
    | .reply r =>
      if statusOk r.status = false then
        { result := .error (.authFailed r.status r.text), state := st, loginCalled := true }
      else if truthyStr r.accessToken = false then
        { result := .error (.missingToken r.text), state := st, loginCalled := true }
      else
        let tok := r.accessToken.getD ""
        let ms := (parseExpiresIn dateParse now r.expiresIn).getD FALLBACK_MS
        { result := .ok tok,
          state := { bearer := some tok, bearerExpiresAt := now + ms },
          loginCalled := true }

/-- An outbound URL, structurally: the path relative to the fixed vendor
base URL (with leading slash) and the ordered query parameters attached by
`searchParams.set`. -/
structure Url where
  path : String
  query : List (String × String)
deriving Repr, DecidableEq

/-- The upstream reply to one candidate GET, after `r.text()`:
status, the `content-type` header (possibly absent), and the body. -/
structure UpstreamResponse where
  status : Nat
  ctype : Option String
  body : String
deriving Repr, DecidableEq

/-- Outcome of one candidate fetch: a reply, or a transport-level throw. -/
inductive FetchResult where
  | success (r : UpstreamResponse)
  | transportError
deriving Repr, DecidableEq

/-- The hard-coded path-template guesses of `buildCandidateList`
(src/server.js lines 86-95): the resource itself, the `job/` namespaced
variant, and the applicants-specific aliases; `.filter(Boolean)` drops the
null rows (absent here by construction) and empty strings. -/
def staticBase (resource : String) : List String :=
  ([resource, "job/" ++ resource] ++
    (if resource = "applicants" then
      ["job/applications", "applications", "JobApplicants",
       "job/JobApplicants", "jobapplications", "JobApplications"]
     else [])).filter (fun p => p != "")

/-- The deduplication key of `buildCandidateList`: the template plus the
encoded id segment when an id is present (`enc` models the JS
`encodeURIComponent` builtin). -/
def relKey (enc : String → String) (id : Option String) (p : String) : String :=
  match id with
  | some i => p ++ "/" ++ enc i
  | none => p

/-- The `filter` with a `seen` set in `buildCandidateList`: keep an
element exactly when its key has not been seen yet, first occurrence
wins. -/
def dedupLoop (key : String → String) (seen : List String) : List String → List String
  | [] => []
  | p :: ps =>
    if key p ∈ seen then dedupLoop key seen ps
    else p :: dedupLoop key (key p :: seen) ps

/-- `buildCandidateList` (src/server.js lines 84-109): hard-coded guesses,
then the discovered entity sets (with falsy entries dropped), deduplicated
by resolved path.  The function returns the kept path templates; the
handlers turn each template `p` into the absolute URL base + "/" + p
(note the source's `filter` keeps the template, not the id-extended
path). -/
def buildCandidateList (enc : String → String) (resource : String) (id : Option String)
    (discovered : List String) : List String :=
  dedupLoop (relKey enc id) []
    (staticBase resource ++ discovered.filter (fun s => s != ""))

/-- Result of the sequential attempt loop (src/server.js lines 227-240):
first 2xx wins with its reply and the attempt log so far; or the list is
exhausted with the last reply kept; or a fetch threw, which escapes the
loop (the route's catch).  `fetched` records every URL for which a fetch
was issued, in order. -/
inductive LoopOut where
  | success (winner : Url) (resp : UpstreamResponse)
      (log : List (Nat × Url)) (fetched : List Url)
  | exhausted (finalResp : Option UpstreamResponse)
      (log : List (Nat × Url)) (fetched : List Url)
  | threw (fetched : List Url)
deriving Repr, DecidableEq

/-- The attempt loop itself: visit candidates in order; push
`(status, url)` onto the log after each reply; stop at the first 2xx; on a
non-2xx remember the reply as `finalResp` and continue; a transport error
escapes. -/
def attemptLoop (fetchFn : Url → FetchResult) :
    List Url → Option UpstreamResponse → List (Nat × Url) → List Url → LoopOut
  | [], finalResp, log, fetched => .exhausted finalResp log fetched
  | u :: rest, finalResp, log, fetched =>
    match fetchFn u with
    | .transportError => .threw (fetched ++ [u])
    | .success r =>
      if statusOk r.status then
        .success u r (log ++ [(r.status, u)]) (fetched ++ [u])
      else
        attemptLoop fetchFn rest (some r) (log ++ [(r.status, u)]) (fetched ++ [u])

/-- The URLs actually fetched during the loop. -/
def fetchedOf : LoopOut → List Url
  | .success _ _ _ fe => fe
  | .exhausted _ _ fe => fe
  | .threw fe => fe

/-- The client-visible response of a proxy route.  `notAllowed` is the
404 "Resource not allowed" reject; `relayed` carries the relayed upstream
status, content-type and body plus the `X-Proxy-Upstream` (when set) and
`X-Proxy-Attempts` headers; `noUpstreamMatched` is the 404 "No upstream
matched" fallback; `proxyFetchFailed` is the catch-all 500 "Proxy fetch
failed". -/
inductive ClientResponse where
  | notAllowed
  | relayed (status : Nat) (ctype : String) (body : String)
      (upstream : Option Url) (attemptsHeader : List (Nat × Url))
  | noUpstreamMatched (attemptsHeader : List (Nat × Url))
  | proxyFetchFailed
deriving Repr, DecidableEq

/-- How the route turns the loop outcome into its response
(src/server.js lines 233-246): a win is relayed with both headers; a
non-empty exhaustion relays the last reply (content-type defaulted) with
the attempts header only; an empty exhaustion yields the "No upstream
matched" result; a throw reaches the catch. -/
def assembleLoop : LoopOut → ClientResponse
  | .success u r log _ =>
    .relayed r.status (r.ctype.getD "application/json") r.body (some u) log
  | .exhausted (some fin) log _ =>
    .relayed fin.status (fin.ctype.getD "application/json") fin.body none log
  | .exhausted none log _ => .noUpstreamMatched log
  | .threw _ => .proxyFetchFailed

/-- One outbound network interaction made while serving a request: the
login POST, the (abstracted) discovery phase, or a candidate GET. -/
inductive OutboundCall where
  | login
  | discovery
  | candidateFetch (u : Url)
deriving Repr, DecidableEq

/-- Extract the candidate URLs fetched, from a call trace. -/
def candidateUrlsOf (calls : List OutboundCall) : List Url :=
  calls.filterMap fun c =>
    match c with
    | .candidateFetch u => some u
    | _ => none

/-- The oracles a request is served against: the login outcome, the
`Date.parse` builtin, the current instant, the entity-set names the
discovery helper would return for "applicants", and the upstream reply to
each candidate URL. -/
structure Env where
  login : LoginOutcome
  dateParse : String → Option Int
  now : Int
  discovered : List String
  fetchFn : Url → FetchResult

/-- The candidate URLs attempted by the collection route: the candidate
list for the resource (discovery applies to "applicants" only), each with
the inbound query attached (src/server.js lines 217-225). -/
def collectionAttempts (env : Env) (resource : String)
    (query : List (String × String)) (enc : String → String) : List Url :=
  (buildCandidateList enc resource none
      (if resource = "applicants" then env.discovered else [])).map
    fun p => Url.mk ("/" ++ p) query

/-- The candidate URLs attempted by the by-id route
(src/server.js lines 266-271): the candidate list for the resource and id;
no query parameters are attached by this route. -/
def byIdAttempts (env : Env) (resource : String) (id : String)
    (enc : String → String) : List Url :=
  (buildCandidateList enc resource (some id)
      (if resource = "applicants" then env.discovered else [])).map
    fun p => Url.mk ("/" ++ p) []

/-- The `GET /proxy/:resource` handler (src/server.js lines 203-251):
allow-list check, `getBearer`, discovery for "applicants", candidate
construction with query attachment, then the attempt loop.  Returns the
client response, the token cache afterwards, and the ordered outbound
calls. -/
def proxyCollection (env : Env) (creds : Creds) (st : TokenState)
    (resource : String) (query : List (String × String)) (enc : String → String) :
    ClientResponse × TokenState × List OutboundCall :=
  if resource ∈ ALLOW_LIST then
    let gb := getBearer creds env.login env.dateParse env.now st
    let loginCalls : List OutboundCall := if gb.loginCalled then [.login] else []
    match gb.result with
    | .error _ => (.proxyFetchFailed, gb.state, loginCalls)
    | .ok _ =>
      let discCalls : List OutboundCall :=
        if resource = "applicants" then [.discovery] else []
      let out := attemptLoop env.fetchFn (collectionAttempts env resource query enc) none [] []
      (assembleLoop out, gb.state, loginCalls ++ discCalls ++ (fetchedOf out).map .candidateFetch)
  else (.notAllowed, st, [])

/-- The `GET /proxy/:resource/:id` handler (src/server.js lines 254-291):
identical to the collection route except that the id enters the candidate
list and the inbound query (`query`) is never attached to the candidate
URLs. -/
def proxyById (env : Env) (creds : Creds) (st : TokenState)
    (resource : String) (id : String) (query : List (String × String))
    (enc : String → String) :
    ClientResponse × TokenState × List OutboundCall :=
  if resource ∈ ALLOW_LIST then
    let gb := getBearer creds env.login env.dateParse env.now st
    let loginCalls : List OutboundCall := if gb.loginCalled then [.login] else []
    match gb.result with
    | .error _ => (.proxyFetchFailed, gb.state, loginCalls)
    | .ok _ =>
      let discCalls : List OutboundCall :=
        if resource = "applicants" then [.discovery] else []
      let out := attemptLoop env.fetchFn (byIdAttempts env resource id enc) none [] []
      (assembleLoop out, gb.state, loginCalls ++ discCalls ++ (fetchedOf out).map .candidateFetch)
  else (.notAllowed, st, [])

/-- The `/debug/auth` response (src/server.js lines 167-174): on success a
masked token preview (`slice(0, 8)` plus "...") and the cached expiry
instant; on failure the thrown error. -/
inductive DebugAuthResponse where
  | authOk (bearerPreview : String) (expiresAt : Int)
  | authErr (e : BearerError)
deriving Repr, DecidableEq

/-- The `/debug/auth` handler: calls `getBearer` and reports the masked
preview and expiry, or the error. -/
def debugAuth (creds : Creds) (login : LoginOutcome) (dateParse : String → Option Int)
    (now : Int) (st : TokenState) : DebugAuthResponse × TokenState × Bool :=
  let gb := getBearer creds login dateParse now st
  match gb.result with
  | .ok b => (.authOk (b.take 8 ++ "...") gb.state.bearerExpiresAt, gb.state, gb.loginCalled)
  | .error e => (.authErr e, gb.state, gb.loginCalled)

/-! ### Concrete fixtures used by witnesses and counterexamples -/

/-- A sample `encodeURIComponent` oracle (the identity is a legitimate
encoder on strings without reserved characters). -/
def sampleEnc : String → String := fun s => s

/-- Fully configured credentials. -/
def sampleCreds : Creds := { apiKey := some "key", user := some "user", pass := some "pass" }

/-- An empty token cache. -/
def freshState : TokenState := { bearer := none, bearerExpiresAt := 0 }

/-- A cache holding a fresh token, valid far beyond the skew at time 0. -/
def hitState : TokenState := { bearer := some "cachedtoken99", bearerExpiresAt := 10000000 }

/-- A 2xx upstream reply. -/
def okResp : UpstreamResponse := { status := 200, ctype := some "application/json", body := "ok" }

/-- A 404 upstream reply. -/
def missResp : UpstreamResponse := { status := 404, ctype := some "text/plain", body := "nope" }

/-- A successful login reply carrying a 300-second relative expiry. -/
def sampleReply : LoginReply :=
  { status := 200, text := "", accessToken := some "tok_abcdefgh", expiresIn := .jnum 300 }

/-- A successful login outcome. -/
def sampleLogin : LoginOutcome := .reply sampleReply

/-- A login reply whose numeric expiry field is 0. -/
def zeroExpiryReply : LoginReply :=
  { status := 200, text := "", accessToken := some "tok_abcdefgh", expiresIn := .jnum 0 }

/-- Upstream oracle: the second static candidate of "jobs" hits, everything
else misses. -/
def rsSecondHit : Url → UpstreamResponse :=
  fun u => if u.path = "/job/jobs" then okResp else missResp

/-- Upstream oracle: everything misses with a 404. -/
def rsAllMiss : Url → UpstreamResponse := fun _ => missResp

/-- Environment in which every candidate fetch returns a 404. -/
def envAllMiss : Env :=
  { login := sampleLogin, dateParse := fun _ => none, now := 0, discovered := [],
    fetchFn := fun u => .success (rsAllMiss u) }

/-- Environment in which the second static candidate of "jobs" returns 200. -/
def envSecondHit : Env :=
  { login := sampleLogin, dateParse := fun _ => none, now := 0, discovered := [],
    fetchFn := fun u => .success (rsSecondHit u) }

/-- Environment in which every candidate fetch returns 200 immediately. -/
def envFirstHit : Env :=
  { login := sampleLogin, dateParse := fun _ => none, now := 0, discovered := [],
    fetchFn := fun _ => .success okResp }

/-- Environment in which the first static candidate of "jobs" throws a
transport error while the second would return 200. -/
def envThrowFirst : Env :=
  { login := sampleLogin, dateParse := fun _ => none, now := 0, discovered := [],
    fetchFn := fun u => if u.path = "/jobs" then .transportError else .success okResp }

/-! ### Helper lemmas about the attempt loop -/

/-- A cache hit returns the cached token unchanged with no login call. -/
theorem getBearer_hit (creds : Creds) (login : LoginOutcome)
    (dateParse : String → Option Int) (now : Int) (t : String) (E : Int)
    (hne : t ≠ "") (hfresh : now < E - SKEW_MS) :
    getBearer creds login dateParse now ⟨some t, E⟩ =
      { result := .ok t, state := ⟨some t, E⟩, loginCalled := false } := by
  simp [getBearer, truthyStr, hne, hfresh]

/-- Running the loop over misses followed by a 2xx candidate stops at that
candidate with the accumulated log, never touching later candidates. -/
theorem attemptLoop_success_run (rs : Url → UpstreamResponse) (pre : List Url) (w : Url)
    (post : List Url) (hmiss : ∀ u ∈ pre, statusOk (rs u).status = false)
    (hhit : statusOk (rs w).status = true) :
    ∀ fin log fetched,
      attemptLoop (fun u => .success (rs u)) (pre ++ w :: post) fin log fetched =
        .success w (rs w)
          (log ++ pre.map (fun u => ((rs u).status, u)) ++ [((rs w).status, w)])
          (fetched ++ pre ++ [w]) := by
  induction pre with
  | nil =>
    intro fin log fetched
    simp [attemptLoop, hhit]
  | cons u pre ih =>
    intro fin log fetched
    have hu : statusOk (rs u).status = false := hmiss u (by simp)
    have ih' := ih (fun v hv => hmiss v (by simp [hv]))
    simp only [List.cons_append, attemptLoop, hu, Bool.false_eq_true, if_false,
      List.append_eq]
    rw [ih']
    simp

/-- Running the loop over a non-empty all-miss list exhausts it, keeping
the last reply and logging every candidate. -/
theorem attemptLoop_exhaust_run (rs : Url → UpstreamResponse) (init : List Url) (last : Url)
    (hmiss : ∀ u ∈ init ++ [last], statusOk (rs u).status = false) :
    ∀ fin log fetched,
      attemptLoop (fun u => .success (rs u)) (init ++ [last]) fin log fetched =
        .exhausted (some (rs last))
          (log ++ (init ++ [last]).map (fun u => ((rs u).status, u)))
          (fetched ++ (init ++ [last])) := by
  induction init with
  | nil =>
    intro fin log fetched
    have h := hmiss last (by simp)
    simp [attemptLoop, h]
  | cons u init ih =>
    intro fin log fetched
    have hu : statusOk (rs u).status = false := hmiss u (by simp)
    have ih' := ih (fun v hv => hmiss v (by simp at hv ⊢; tauto))
    simp only [List.cons_append, attemptLoop, hu, Bool.false_eq_true, if_false,
      List.append_eq]
    rw [ih']
    simp

/-- A transport error after a run of misses escapes the loop; the fetches
issued are exactly the misses plus the throwing candidate. -/
theorem attemptLoop_threw_run (f : Url → FetchResult) (pre : List Url) (u : Url)
    (rest : List Url)
    (hmiss : ∀ v ∈ pre, ∃ rv, f v = .success rv ∧ statusOk rv.status = false)
    (hthrow : f u = .transportError) :
    ∀ fin log fetched,
      attemptLoop f (pre ++ u :: rest) fin log fetched = .threw (fetched ++ pre ++ [u]) := by
  induction pre with
  | nil =>
    intro fin log fetched
    simp [attemptLoop, hthrow]
  | cons v pre ih =>
    intro fin log fetched
    obtain ⟨rv, hv, hmv⟩ := hmiss v (by simp)
    have ih' := ih (fun w hw => hmiss w (by simp [hw]))
    simp only [List.cons_append, attemptLoop, hv, hmv, Bool.false_eq_true, if_false,
      List.append_eq]
    rw [ih']
    simp

/-- The loop reports an empty exhaustion only when it was started on an
empty candidate list (with no previous reply). -/
theorem attemptLoop_exhausted_none (f : Url → FetchResult) :
    ∀ (urls : List Url) (fin : Option UpstreamResponse) log fetched l fe,
      attemptLoop f urls fin log fetched = .exhausted none l fe → urls = [] ∧ fin = none := by
  intro urls
  induction urls with
  | nil =>
    intro fin log fetched l fe h
    simp only [attemptLoop] at h
    cases h
    exact ⟨rfl, rfl⟩
  | cons u rest ih =>
    intro fin log fetched l fe h
    simp only [attemptLoop] at h
    cases hfu : f u with
    | transportError => rw [hfu] at h; cases h
    | success r =>
      rw [hfu] at h
      by_cases hok : statusOk r.status = true
      · simp [hok] at h
      · simp only [hok, Bool.false_eq_true, if_false] at h
        exact absurd (ih _ _ _ _ _ h).2 (by simp)

/-- The fetches issued by the loop extend the accumulator by a prefix of
the candidate list. -/
theorem attemptLoop_fetched_extend (f : Url → FetchResult) :
    ∀ (urls : List Url) (fin : Option UpstreamResponse) log fetched,
      ∃ p t, urls = p ++ t ∧
        fetchedOf (attemptLoop f urls fin log fetched) = fetched ++ p := by
  intro urls
  induction urls with
  | nil =>
    intro fin log fetched
    exact ⟨[], [], by simp, by simp [attemptLoop, fetchedOf]⟩
  | cons u rest ih =>
    intro fin log fetched
    cases hfu : f u with
    | transportError =>
      exact ⟨[u], rest, by simp, by simp [attemptLoop, hfu, fetchedOf]⟩
    | success r =>
      by_cases hok : statusOk r.status = true
      · exact ⟨[u], rest, by simp, by simp [attemptLoop, hfu, hok, fetchedOf]⟩
      · obtain ⟨p, t, hpt, hfe⟩ := ih (some r) (log ++ [(r.status, u)]) (fetched ++ [u])
        refine ⟨u :: p, t, by simp [hpt], ?_⟩
        simp only [attemptLoop, hfu, hok, Bool.false_eq_true, if_false]
        rw [hfe]
        simp

/-- `candidateUrlsOf` recovers the mapped URL list. -/
theorem candidateUrlsOf_map (l : List Url) :
    candidateUrlsOf (l.map OutboundCall.candidateFetch) = l := by
  induction l with
  | nil => rfl
  | cons u l ih => simpa [candidateUrlsOf] using ih

/-- `candidateUrlsOf` distributes over append. -/
theorem candidateUrlsOf_append (a b : List OutboundCall) :
    candidateUrlsOf (a ++ b) = candidateUrlsOf a ++ candidateUrlsOf b := by
  simp [candidateUrlsOf]

/-- `candidateUrlsOf` skips a login marker. -/
theorem candidateUrlsOf_login : candidateUrlsOf [OutboundCall.login] = [] := rfl

/-- `candidateUrlsOf` skips a discovery marker. -/
theorem candidateUrlsOf_discovery : candidateUrlsOf [OutboundCall.discovery] = [] := rfl

/-- `candidateUrlsOf` of an empty trace. -/
theorem candidateUrlsOf_nil : candidateUrlsOf [] = [] := rfl

/-- `candidateUrlsOf` skips a leading login marker. -/
theorem candidateUrlsOf_login_cons (rest : List OutboundCall) :
    candidateUrlsOf (OutboundCall.login :: rest) = candidateUrlsOf rest := rfl

/-- `candidateUrlsOf` skips a leading discovery marker. -/
theorem candidateUrlsOf_discovery_cons (rest : List OutboundCall) :
    candidateUrlsOf (OutboundCall.discovery :: rest) = candidateUrlsOf rest := rfl

/-- A conditional login marker holds no candidate URL. -/
theorem candidateUrlsOf_ite_login (P : Prop) [Decidable P] :
    candidateUrlsOf (if P then [OutboundCall.login] else []) = [] := by
  by_cases h : P <;> simp [h, candidateUrlsOf_login, candidateUrlsOf_nil]

/-- A conditional discovery marker holds no candidate URL. -/
theorem candidateUrlsOf_ite_discovery (P : Prop) [Decidable P] :
    candidateUrlsOf (if P then [OutboundCall.discovery] else []) = [] := by
  by_cases h : P <;> simp [h, candidateUrlsOf_discovery, candidateUrlsOf_nil]

/-- The candidate URLs of a handler call trace are exactly the fetched
candidate list. -/
theorem candidateUrlsOf_calls (a b : List OutboundCall) (l : List Url)
    (ha : candidateUrlsOf a = []) (hb : candidateUrlsOf b = []) :
    candidateUrlsOf (a ++ b ++ l.map OutboundCall.candidateFetch) = l := by
  simp [candidateUrlsOf_append, ha, hb, candidateUrlsOf_map]

/-! ### Helper lemmas about deduplication -/

/-- `dedupLoop` depends only on the membership of the seen set. -/
theorem dedupLoop_congr (key : String → String) :
    ∀ (l s1 s2 : List String), (∀ k, k ∈ s1 ↔ k ∈ s2) →
      dedupLoop key s1 l = dedupLoop key s2 l := by
  intro l
  induction l with
  | nil => intro s1 s2 h; rfl
  | cons p ps ih =>
    intro s1 s2 h
    by_cases hp : key p ∈ s1
    · rw [dedupLoop, dedupLoop, if_pos hp, if_pos ((h (key p)).mp hp)]
      exact ih s1 s2 h
    · have hp2 : key p ∉ s2 := fun hx => hp ((h (key p)).mpr hx)
      rw [dedupLoop, dedupLoop, if_neg hp, if_neg hp2]
      refine congrArg _ ?_
      refine ih _ _ ?_
      intro k
      simp only [List.mem_cons]
      exact or_congr Iff.rfl (h k)

/-- Deduplicating a concatenation processes the first block, then the
second block against the keys of the whole first block. -/
theorem dedupLoop_append (key : String → String) :
    ∀ (l1 l2 s : List String),
      dedupLoop key s (l1 ++ l2) =
        dedupLoop key s l1 ++ dedupLoop key (l1.map key ++ s) l2 := by
  intro l1
  induction l1 with
  | nil => intro l2 s; simp [dedupLoop]
  | cons p l1 ih =>
    intro l2 s
    by_cases hp : key p ∈ s
    · rw [List.cons_append, dedupLoop, if_pos hp, ih, dedupLoop, if_pos hp]
      refine congrArg _ ?_
      refine dedupLoop_congr key l2 _ _ ?_
      intro k
      have hks : k = key p → k ∈ s := fun he => by rw [he]; exact hp
      simp only [List.map_cons, List.mem_append, List.mem_cons]
      constructor
      · intro h
        rcases h with h1 | h1
        · exact Or.inl (Or.inr h1)
        · exact Or.inr h1
      · intro h
        rcases h with h1 | h1
        · rcases h1 with h2 | h2
          · exact Or.inr (hks h2)
          · exact Or.inl h2
        · exact Or.inr h1
    · rw [List.cons_append, dedupLoop, if_neg hp, ih, dedupLoop, if_neg hp,
        List.cons_append]
      refine congrArg _ (congrArg _ ?_)
      refine dedupLoop_congr key l2 _ _ ?_
      intro k
      simp only [List.map_cons, List.mem_append, List.mem_cons]
      tauto

/-- The deduplicated list is a sublist (order-preserving selection) of the
input. -/
theorem dedupLoop_sublist (key : String → String) :
    ∀ (l s : List String), List.Sublist (dedupLoop key s l) l := by
  intro l
  induction l with
  | nil => intro s; simp [dedupLoop]
  | cons p ps ih =>
    intro s
    by_cases hp : key p ∈ s
    · rw [dedupLoop, if_pos hp]
      exact List.Sublist.cons p (ih s)
    · rw [dedupLoop, if_neg hp]
      exact List.Sublist.cons₂ p (ih _)

/-- The keys of the deduplicated list are pairwise distinct and avoid the
seen set. -/
theorem dedupLoop_nodup (key : String → String) :
    ∀ (l s : List String),
      ((dedupLoop key s l).map key).Nodup ∧
        ∀ k ∈ (dedupLoop key s l).map key, k ∉ s := by
  intro l
  induction l with
  | nil => intro s; simp [dedupLoop]
  | cons p ps ih =>
    intro s
    by_cases hp : key p ∈ s
    · rw [dedupLoop, if_pos hp]
      exact ih s
    · obtain ⟨h1, h2⟩ := ih (key p :: s)
      rw [dedupLoop, if_neg hp]
      refine ⟨?_, ?_⟩
      · simp only [List.map_cons, List.nodup_cons]
        exact ⟨fun hx => (h2 _ hx) (by simp), h1⟩
      · intro k hk
        simp only [List.map_cons, List.mem_cons] at hk
        rcases hk with rfl | hk
        · exact hp
        · intro hks
          exact (h2 k hk) (by simp [hks])

/-- Every input element's key survives into the output (or was already
seen): first occurrences are kept. -/
theorem dedupLoop_mem_key (key : String → String) :
    ∀ (l s : List String) (p : String), p ∈ l →
      key p ∈ s ∨ key p ∈ (dedupLoop key s l).map key := by
  intro l
  induction l with
  | nil => intro s p h; simp at h
  | cons q qs ih =>
    intro s p hp
    by_cases hq : key q ∈ s
    · rw [dedupLoop, if_pos hq]
      rcases List.mem_cons.mp hp with rfl | hp'
      · exact .inl hq
      · exact ih s p hp'
    · rw [dedupLoop, if_neg hq]
      simp only [List.map_cons]
      rcases List.mem_cons.mp hp with rfl | hp'
      · exact .inr (by simp)
      · rcases ih (key q :: s) p hp' with h | h
        · rcases List.mem_cons.mp h with heq | h'
          · exact .inr (by simp [heq])
          · exact .inl h'
        · exact .inr (by simp [h])

/-! ### Handler characterization lemmas -/

/-- The candidate URLs fetched by the collection route form a prefix of
the candidate list it builds before the loop. -/
theorem proxyCollection_fetches_front (env : Env) (creds : Creds) (st : TokenState)
    (r : String) (q : List (String × String)) (enc : String → String) :
    candidateUrlsOf (proxyCollection env creds st r q enc).2.2 <+:
      collectionAttempts env r q enc := by
  by_cases hr : r ∈ ALLOW_LIST
  · simp only [proxyCollection, hr, if_true, ite_true]
    cases hgb : (getBearer creds env.login env.dateParse env.now st).result with
    | error e =>
      refine ⟨collectionAttempts env r q enc, ?_⟩
      cases hcall : (getBearer creds env.login env.dateParse env.now st).loginCalled <;>
        simp [candidateUrlsOf_nil, candidateUrlsOf_login]
    | ok b =>
      obtain ⟨p, t, hpt, hfe⟩ :=
        attemptLoop_fetched_extend env.fetchFn (collectionAttempts env r q enc) none [] []
      have hgoal : candidateUrlsOf
          ((if (getBearer creds env.login env.dateParse env.now st).loginCalled = true
              then [OutboundCall.login] else []) ++
            (if r = "applicants" then [OutboundCall.discovery] else []) ++
            (fetchedOf (attemptLoop env.fetchFn (collectionAttempts env r q enc)
              none [] [])).map OutboundCall.candidateFetch) ++ t =
          collectionAttempts env r q enc := by
        rw [candidateUrlsOf_calls _ _ _ (candidateUrlsOf_ite_login _)
          (candidateUrlsOf_ite_discovery _), hfe]
        simpa using hpt.symm
      exact ⟨t, hgoal⟩
  · simp only [proxyCollection, hr, if_false, ite_false]
    exact ⟨collectionAttempts env r q enc, by simp [candidateUrlsOf_nil]⟩

/-- The candidate URLs fetched by the by-id route form a prefix of the
candidate list it builds before the loop. -/
theorem proxyById_fetches_front (env : Env) (creds : Creds) (st : TokenState)
    (r i : String) (q : List (String × String)) (enc : String → String) :
    candidateUrlsOf (proxyById env creds st r i q enc).2.2 <+:
      byIdAttempts env r i enc := by
  by_cases hr : r ∈ ALLOW_LIST
  · simp only [proxyById, hr, if_true, ite_true]
    cases hgb : (getBearer creds env.login env.dateParse env.now st).result with
    | error e =>
      refine ⟨byIdAttempts env r i enc, ?_⟩
      cases hcall : (getBearer creds env.login env.dateParse env.now st).loginCalled <;>
        simp [candidateUrlsOf_nil, candidateUrlsOf_login]
    | ok b =>
      obtain ⟨p, t, hpt, hfe⟩ :=
        attemptLoop_fetched_extend env.fetchFn (byIdAttempts env r i enc) none [] []
      have hgoal : candidateUrlsOf
          ((if (getBearer creds env.login env.dateParse env.now st).loginCalled = true
              then [OutboundCall.login] else []) ++
            (if r = "applicants" then [OutboundCall.discovery] else []) ++
            (fetchedOf (attemptLoop env.fetchFn (byIdAttempts env r i enc)
              none [] [])).map OutboundCall.candidateFetch) ++ t =
          byIdAttempts env r i enc := by
        rw [candidateUrlsOf_calls _ _ _ (candidateUrlsOf_ite_login _)
          (candidateUrlsOf_ite_discovery _), hfe]
        simpa using hpt.symm
      exact ⟨t, hgoal⟩
  · simp only [proxyById, hr, if_false, ite_false]
    exact ⟨byIdAttempts env r i enc, by simp [candidateUrlsOf_nil]⟩

/-! ### Claim theorems -/

/-- C1: a resource outside the allow-list is rejected with the 404
"Resource not allowed" result by both proxy routes, with the token cache
untouched and no outbound call of any kind (no login, no discovery, no
candidate fetch). -/
theorem claim_C1_reject_before_network (env : Env) (creds : Creds) (st : TokenState)
    (resource id : String) (query : List (String × String)) (enc : String → String)
    (h : resource ∉ ALLOW_LIST) :
    proxyCollection env creds st resource query enc = (.notAllowed, st, []) ∧
    proxyById env creds st resource id query enc = (.notAllowed, st, []) := by
  constructor
  · simp [proxyCollection, h]
  · simp [proxyById, h]

/-- Witness for C1 at the concrete resource "widgets". -/
theorem claim_C1_witness :
    proxyCollection envAllMiss sampleCreds freshState "widgets" [] sampleEnc =
      (.notAllowed, freshState, []) ∧
    proxyById envAllMiss sampleCreds freshState "widgets" "7" [] sampleEnc =
      (.notAllowed, freshState, []) :=
  claim_C1_reject_before_network envAllMiss sampleCreds freshState "widgets" "7" [] sampleEnc
    (by decide)

/-- C2: with a token cached and the call instant strictly before
expiry-minus-skew, `getBearer` returns the cached token, leaves the cache
unchanged and issues no login request; once the instant is at or past
expiry-minus-skew (with the credentials configured, as they must be for a
cached token to exist), a login request is issued. -/
theorem claim_C2_token_cache (creds : Creds) (login : LoginOutcome)
    (dateParse : String → Option Int) (now : Int) (st : TokenState) (t : String)
    (hcache : st.bearer = some t) (hne : t ≠ "") :
    (now < st.bearerExpiresAt - SKEW_MS →
      getBearer creds login dateParse now st =
        { result := .ok t, state := st, loginCalled := false }) ∧
    ((truthyStr creds.apiKey && truthyStr creds.user && truthyStr creds.pass) = true →
      st.bearerExpiresAt - SKEW_MS ≤ now →
      (getBearer creds login dateParse now st).loginCalled = true) := by
  constructor
  · intro hfresh
    simp [getBearer, truthyStr, hcache, hne, hfresh]
  · intro hcreds hstale
    have hnot : ¬ (truthyStr st.bearer = true ∧ now < st.bearerExpiresAt - SKEW_MS) :=
      fun hx => absurd hx.2 (not_lt.mpr hstale)
    simp only [getBearer, if_neg hnot]
    rw [if_neg (by simp [hcreds])]
    cases login with
    | threw => rfl
    | reply r =>
      by_cases hok : statusOk r.status = false
      · simp [hok]
      · by_cases htok : truthyStr r.accessToken = false
        · simp [hok, htok]
        · simp [hok, htok]

/-- Witness for C2: at time 0 the cached token (expiry 10000000) is
returned without a login; at time 9999999 (past expiry minus skew) a
login is issued. -/
theorem claim_C2_witness :
    getBearer sampleCreds sampleLogin (fun _ => none) 0 hitState =
      { result := .ok "cachedtoken99", state := hitState, loginCalled := false } ∧
    (getBearer sampleCreds sampleLogin (fun _ => none) 9999999 hitState).loginCalled = true := by
  constructor
  · exact (claim_C2_token_cache sampleCreds sampleLogin (fun _ => none) 0 hitState
      "cachedtoken99" rfl (by decide)).1 (by decide)
  · exact (claim_C2_token_cache sampleCreds sampleLogin (fun _ => none) 9999999 hitState
      "cachedtoken99" rfl (by decide)).2 (by decide) (by decide)

/-- On a refresh with a successful login, `getBearer` installs the new
token with expiry `now + (parseExpiresIn(expiresIn) ?? 30min)`. -/
theorem getBearer_refresh_expiry (creds : Creds) (r : LoginReply)
    (dateParse : String → Option Int) (now : Int) (st : TokenState) (tok : String)
    (hfresh : truthyStr st.bearer = false)
    (hcreds : (truthyStr creds.apiKey && truthyStr creds.user && truthyStr creds.pass) = true)
    (hok : statusOk r.status = true)
    (htok : r.accessToken = some tok) (htokne : tok ≠ "") :
    getBearer creds (.reply r) dateParse now st =
      { result := .ok tok,
        state :=
          { bearer := some tok,
            bearerExpiresAt :=
              now + (parseExpiresIn dateParse now r.expiresIn).getD FALLBACK_MS },
        loginCalled := true } := by
  have hnot : ¬ (truthyStr st.bearer = true ∧ now < st.bearerExpiresAt - SKEW_MS) := by
    intro hx
    rw [hfresh] at hx
    exact absurd hx.1 (by simp)
  simp only [getBearer, if_neg hnot]
  rw [if_neg (by simp [hcreds])]
  simp [hok, htok, truthyStr, htokne]

/-- C8 (amended): on a successful login refresh, a positive numeric
expiry N yields cached expiry now + N*1000 ms; a non-numeric parseable
timestamp string yields exactly that instant; an absent or unparseable
value yields the 30-minute fallback -- and so does the numeric value 0,
which the falsy-value guard of `parseExpiresIn` treats as absent. -/
theorem claim_C8_expiry_parsing (creds : Creds) (r : LoginReply)
    (dateParse : String → Option Int) (now : Int) (st : TokenState) (tok : String)
    (hfresh : truthyStr st.bearer = false)
    (hcreds : (truthyStr creds.apiKey && truthyStr creds.user && truthyStr creds.pass) = true)
    (hok : statusOk r.status = true)
    (htok : r.accessToken = some tok) (htokne : tok ≠ "") :
    (∀ N : Int, 0 < N → r.expiresIn = .jnum N →
      (getBearer creds (.reply r) dateParse now st).state.bearerExpiresAt = now + N * 1000) ∧
    (∀ s d, r.expiresIn = .jstr s → s ≠ "" → isAllDigits s = false → dateParse s = some d →
      (getBearer creds (.reply r) dateParse now st).state.bearerExpiresAt = d) ∧
    ((r.expiresIn = .jnull ∨ r.expiresIn = .jnum 0 ∨
        (∃ s, r.expiresIn = .jstr s ∧ s ≠ "" ∧ isAllDigits s = false ∧ dateParse s = none)) →
      (getBearer creds (.reply r) dateParse now st).state.bearerExpiresAt
        = now + FALLBACK_MS) := by
  have hb := getBearer_refresh_expiry creds r dateParse now st tok hfresh hcreds hok htok htokne
  refine ⟨?_, ?_, ?_⟩
  · intro N hN hexp
    rw [hb]
    have hN0 : N ≠ 0 := hN.ne'
    simp [parseExpiresIn, truthy, matchesDigits, jsNumberOfDigits, hexp, hN0, hN.le]
  · intro s d hexp hs hdig hdp
    rw [hb]
    simp only [parseExpiresIn, truthy, matchesDigits, jsToString, hexp, hdig]
    simp [hs, hdp]
  · intro hcase
    rw [hb]
    rcases hcase with hexp | hexp | ⟨s, hexp, hs, hdig, hdp⟩
    · simp [parseExpiresIn, truthy, hexp]
    · simp [parseExpiresIn, truthy, hexp]
    · simp only [parseExpiresIn, truthy, matchesDigits, jsToString, hexp, hdig]
      simp [hs, hdp]

/-- Witness for C8 (amended): a 300-second numeric expiry at time 5
yields cached expiry 5 + 300000. -/
theorem claim_C8_witness :
    (getBearer sampleCreds (.reply sampleReply) (fun _ => none) 5 freshState).state.bearerExpiresAt
      = 5 + 300 * 1000 :=
  (claim_C8_expiry_parsing sampleCreds sampleReply (fun _ => none) 5 freshState
    "tok_abcdefgh" rfl (by decide) (by decide) rfl (by decide)).1 300 (by decide) rfl

/-- C8 counterexample: a login reply whose numeric expiry field is the
number 0 does not give expiry now + 0*1000 (= 0 at now = 0) as the claim
requires for every numeric value; the falsy-value guard routes it to the
30-minute fallback. -/
theorem claim_C8_counterexample :
    (getBearer sampleCreds (.reply zeroExpiryReply)
        (fun _ => none) 0 freshState).state.bearerExpiresAt = FALLBACK_MS ∧
    (getBearer sampleCreds (.reply zeroExpiryReply)
        (fun _ => none) 0 freshState).state.bearerExpiresAt ≠ 0 + 0 * 1000 := by
  constructor
  · decide
  · decide

/-- C3: the attempt loop visits candidates in order; at the first
candidate with a 2xx status it stops immediately (no later candidate is
fetched) and the route relays that candidate's status, content-type and
body with the winning URL and the attempt trace; every earlier non-2xx
reply is recorded in the trace before moving on. -/
theorem claim_C3_first_success (rs : Url → UpstreamResponse) (pre : List Url) (w : Url)
    (post : List Url)
    (hmiss : ∀ u ∈ pre, statusOk (rs u).status = false)
    (hhit : statusOk (rs w).status = true) :
    (∀ (fin : Option UpstreamResponse) log fetched,
      attemptLoop (fun u => .success (rs u)) (pre ++ w :: post) fin log fetched =
        .success w (rs w)
          (log ++ pre.map (fun u => ((rs u).status, u)) ++ [((rs w).status, w)])
          (fetched ++ pre ++ [w])) ∧
    (∀ env creds st resource query enc b,
      resource ∈ ALLOW_LIST →
      (getBearer creds env.login env.dateParse env.now st).result = .ok b →
      env.fetchFn = (fun u => .success (rs u)) →
      collectionAttempts env resource query enc = pre ++ w :: post →
      (proxyCollection env creds st resource query enc).1 =
        .relayed (rs w).status ((rs w).ctype.getD "application/json") (rs w).body (some w)
          (pre.map (fun u => ((rs u).status, u)) ++ [((rs w).status, w)]) ∧
      candidateUrlsOf (proxyCollection env creds st resource query enc).2.2 = pre ++ [w]) := by
  have hloop := attemptLoop_success_run rs pre w post hmiss hhit
  refine ⟨hloop, ?_⟩
  intro env creds st resource query enc b hr hb hf hatt
  constructor
  · simp only [proxyCollection, hr, if_true, ite_true]
    rw [hb]
    simp [hf, hatt, hloop none [] [], assembleLoop]
  · simp only [proxyCollection, hr, if_true, ite_true]
    rw [hb]
    simp [hf, hatt, hloop none [] [], fetchedOf, candidateUrlsOf_append,
      candidateUrlsOf_ite_login, candidateUrlsOf_ite_discovery, candidateUrlsOf_map]
    rfl

/-- Witness for C3: resource "jobs", first candidate 404, second 200 --
the response relays the second candidate with trace 404 then 200, and
exactly those two candidates are fetched. -/
theorem claim_C3_witness :
    (proxyCollection envSecondHit sampleCreds hitState "jobs" [] sampleEnc).1 =
      .relayed 200 "application/json" "ok" (some (Url.mk "/job/jobs" []))
        [(404, Url.mk "/jobs" []), (200, Url.mk "/job/jobs" [])] ∧
    candidateUrlsOf
        (proxyCollection envSecondHit sampleCreds hitState "jobs" [] sampleEnc).2.2 =
      [Url.mk "/jobs" [], Url.mk "/job/jobs" []] := by
  have h := (claim_C3_first_success rsSecondHit [Url.mk "/jobs" []] (Url.mk "/job/jobs" []) []
      (by decide) (by decide)).2 envSecondHit sampleCreds hitState "jobs" [] sampleEnc
      "cachedtoken99" (by decide) (by decide) rfl (by decide)
  exact ⟨by simpa using h.1, by simpa using h.2⟩

/-- C4: with a non-empty candidate list all returning non-2xx, the route
relays the last candidate's status, content-type (defaulted when the
header is absent) and body -- not a synthesized error -- with no
winning-URL header, and the attempt trace lists every candidate with its
status in order; the route's response assembly returns the generic "No
upstream matched" result exactly when no candidate was attempted at
all. -/
theorem claim_C4_exhaustion (rs : Url → UpstreamResponse) (init : List Url) (last : Url)
    (hmiss : ∀ u ∈ init ++ [last], statusOk (rs u).status = false) :
    (∀ env creds st resource query enc b,
      resource ∈ ALLOW_LIST →
      (getBearer creds env.login env.dateParse env.now st).result = .ok b →
      env.fetchFn = (fun u => .success (rs u)) →
      collectionAttempts env resource query enc = init ++ [last] →
      (proxyCollection env creds st resource query enc).1 =
        .relayed (rs last).status ((rs last).ctype.getD "application/json") (rs last).body
          none ((init ++ [last]).map (fun u => ((rs u).status, u)))) ∧
    (∀ log fetched, assembleLoop (.exhausted none log fetched) = .noUpstreamMatched log) := by
  refine ⟨?_, fun log fetched => rfl⟩
  intro env creds st resource query enc b hr hb hf hatt
  have hloop := attemptLoop_exhaust_run rs init last hmiss none [] []
  simp only [proxyCollection, hr, if_true, ite_true]
  rw [hb]
  simp [hf, hatt, hloop, assembleLoop]

/-- Witness for C4: resource "jobs" with both candidates returning 404 --
the response carries the last 404 reply and the trace lists both. -/
theorem claim_C4_witness :
    (proxyCollection envAllMiss sampleCreds hitState "jobs" [] sampleEnc).1 =
      .relayed 404 "text/plain" "nope" none
        [(404, Url.mk "/jobs" []), (404, Url.mk "/job/jobs" [])] := by
  have h := (claim_C4_exhaustion rsAllMiss [Url.mk "/jobs" []] (Url.mk "/job/jobs" [])
      (by decide)).1 envAllMiss sampleCreds hitState "jobs" [] sampleEnc "cachedtoken99"
      (by decide) (by decide) rfl (by decide)
  simpa using h

/-- C7 counterexample: the first candidate of "jobs" throws a transport
error while the second would return 200; the route returns the
synthesized 500 "Proxy fetch failed" response and the second candidate is
never fetched, contradicting continue-on-transport-error. -/
theorem claim_C7_counterexample :
    (proxyCollection envThrowFirst sampleCreds hitState "jobs" [] sampleEnc).1 =
      .proxyFetchFailed ∧
    OutboundCall.candidateFetch (Url.mk "/job/jobs" []) ∉
      (proxyCollection envThrowFirst sampleCreds hitState "jobs" [] sampleEnc).2.2 ∧
    envThrowFirst.fetchFn (Url.mk "/job/jobs" []) = .success okResp ∧
    statusOk okResp.status = true := by
  refine ⟨?_, ?_, ?_, ?_⟩ <;> decide

/-- C7 (amended): a transport error on a candidate aborts the whole
resolution: the loop escapes to the route's catch, the response is the
500 "Proxy fetch failed" error, and the candidates after the throwing
one are never fetched (earlier candidates having returned ordinary
status misses). -/
theorem claim_C7_transport_abort (f : Url → FetchResult) (pre : List Url) (u : Url)
    (rest : List Url)
    (hmiss : ∀ v ∈ pre, ∃ rv, f v = .success rv ∧ statusOk rv.status = false)
    (hthrow : f u = .transportError) :
    (∀ (fin : Option UpstreamResponse) log fetched,
      attemptLoop f (pre ++ u :: rest) fin log fetched = .threw (fetched ++ pre ++ [u])) ∧
    (∀ env creds st resource query enc b,
      resource ∈ ALLOW_LIST →
      (getBearer creds env.login env.dateParse env.now st).result = .ok b →
      env.fetchFn = f →
      collectionAttempts env resource query enc = pre ++ u :: rest →
      (proxyCollection env creds st resource query enc).1 = .proxyFetchFailed ∧
      candidateUrlsOf (proxyCollection env creds st resource query enc).2.2 = pre ++ [u]) := by
  have hloop := attemptLoop_threw_run f pre u rest hmiss hthrow
  refine ⟨hloop, ?_⟩
  intro env creds st resource query enc b hr hb hf hatt
  constructor
  · simp only [proxyCollection, hr, if_true, ite_true]
    rw [hb]
    simp [hf, hatt, hloop none [] [], assembleLoop]
  · simp only [proxyCollection, hr, if_true, ite_true]
    rw [hb]
    simp [hf, hatt, hloop none [] [], fetchedOf, candidateUrlsOf_append,
      candidateUrlsOf_ite_login, candidateUrlsOf_ite_discovery, candidateUrlsOf_map]
    rfl

/-- Witness for C7 (amended): the throw on the first "jobs" candidate
yields the 500 response with exactly one candidate fetched. -/
theorem claim_C7_witness :
    (proxyCollection envThrowFirst sampleCreds hitState "jobs" [] sampleEnc).1 =
      .proxyFetchFailed ∧
    candidateUrlsOf
        (proxyCollection envThrowFirst sampleCreds hitState "jobs" [] sampleEnc).2.2 =
      [Url.mk "/jobs" []] := by
  have h := (claim_C7_transport_abort envThrowFirst.fetchFn [] (Url.mk "/jobs" [])
      [Url.mk "/job/jobs" []] (by simp) (by decide)).2 envThrowFirst sampleCreds hitState
      "jobs" [] sampleEnc "cachedtoken99" (by decide) (by decide) rfl (by decide)
  exact ⟨h.1, by simpa using h.2⟩

/-- C5: the candidate list places every static alias before every
discovered alias (statics deduplicated first, then discovered entries
deduplicated against the statics' keys), is an order-preserving selection
of the raw static-then-discovered sequence whose resolved paths
(template plus encoded id segment when an id is present) are pairwise
distinct, every input path's resolved key being represented by its first
occurrence; and each handler run fetches only a prefix of this list,
built before the loop issues any network call. -/
theorem claim_C5_candidate_construction (enc : String → String) (resource : String)
    (id : Option String) (discovered : List String) :
    buildCandidateList enc resource id discovered =
      dedupLoop (relKey enc id) [] (staticBase resource) ++
        dedupLoop (relKey enc id) ((staticBase resource).map (relKey enc id))
          (discovered.filter (fun s => s != "")) ∧
    ((buildCandidateList enc resource id discovered).map (relKey enc id)).Nodup ∧
    List.Sublist (buildCandidateList enc resource id discovered)
      (staticBase resource ++ discovered.filter (fun s => s != "")) ∧
    (∀ p ∈ staticBase resource ++ discovered.filter (fun s => s != ""),
      relKey enc id p ∈
        (buildCandidateList enc resource id discovered).map (relKey enc id)) ∧
    (∀ env creds st q,
      candidateUrlsOf (proxyCollection env creds st resource q enc).2.2 <+:
        collectionAttempts env resource q enc) := by
  refine ⟨?_, ?_, ?_, ?_, ?_⟩
  · rw [buildCandidateList, dedupLoop_append]
    simp
  · exact (dedupLoop_nodup (relKey enc id)
      (staticBase resource ++ discovered.filter (fun s => s != "")) []).1
  · exact dedupLoop_sublist (relKey enc id)
      (staticBase resource ++ discovered.filter (fun s => s != "")) []
  · intro p hp
    rcases dedupLoop_mem_key (relKey enc id)
        (staticBase resource ++ discovered.filter (fun s => s != "")) [] p hp with h | h
    · simp at h
    · exact h
  · intro env creds st q
    exact proxyCollection_fetches_front env creds st resource q enc

/-- Witness for C5: the discovered entry "job/jobs" duplicates a static
alias of "jobs", yet the resolved path of every input, here "jobs"
itself, is represented in the deduplicated output. -/
theorem claim_C5_witness :
    relKey sampleEnc none "jobs" ∈
      (buildCandidateList sampleEnc "jobs" none ["job/jobs", "extra"]).map
        (relKey sampleEnc none) :=
  (claim_C5_candidate_construction sampleEnc "jobs" none ["job/jobs", "extra"]).2.2.2.1
    "jobs" (by decide)

/-- C6 counterexample: a by-id request for "jobs"/"7" carrying query
parameter x=1 issues its candidate fetch with an empty query -- the
inbound parameter does not appear on the outbound candidate URL,
refuting propagation on the by-id route. -/
theorem claim_C6_counterexample :
    candidateUrlsOf
        (proxyById envFirstHit sampleCreds hitState "jobs" "7" [("x", "1")] sampleEnc).2.2 =
      [Url.mk "/jobs" []] ∧
    ("x", "1") ∉ (Url.mk "/jobs" []).query := by
  constructor
  · decide
  · decide

/-- C6 (amended): on the collection route the inbound query parameters
are attached identically to every outbound candidate URL fetched; the
by-id route attaches no inbound query parameters at all -- its candidate
URLs always carry an empty query. -/
theorem claim_C6_query_propagation :
    (∀ env creds st r q enc u,
      u ∈ candidateUrlsOf (proxyCollection env creds st r q enc).2.2 → u.query = q) ∧
    (∀ env creds st r i q enc u,
      u ∈ candidateUrlsOf (proxyById env creds st r i q enc).2.2 → u.query = []) := by
  constructor
  · intro env creds st r q enc u hu
    have hmem : u ∈ collectionAttempts env r q enc :=
      ((proxyCollection_fetches_front env creds st r q enc).sublist).subset hu
    simp only [collectionAttempts, List.mem_map] at hmem
    obtain ⟨p, hp, rfl⟩ := hmem
    rfl
  · intro env creds st r i q enc u hu
    have hmem : u ∈ byIdAttempts env r i enc :=
      ((proxyById_fetches_front env creds st r i q enc).sublist).subset hu
    simp only [byIdAttempts, List.mem_map] at hmem
    obtain ⟨p, hp, rfl⟩ := hmem
    rfl

/-- Witness for C6 (amended): a concrete collection fetch carries the
inbound parameter, a concrete by-id fetch carries none. -/
theorem claim_C6_witness :
    (Url.mk "/jobs" [("x", "1")]).query = [("x", "1")] ∧
    (Url.mk "/jobs" []).query = [] :=
  ⟨claim_C6_query_propagation.1 envFirstHit sampleCreds hitState "jobs" [("x", "1")]
      sampleEnc (Url.mk "/jobs" [("x", "1")]) (by decide),
   claim_C6_query_propagation.2 envFirstHit sampleCreds hitState "jobs" "7" [("x", "1")]
      sampleEnc (Url.mk "/jobs" []) (by decide)⟩

/-- C9: `/debug/auth` reveals only the first 8 characters of the bearer
token: its success response is exactly `take 8` of the token plus "..."
with the cached expiry, and it is unchanged when the token is replaced by
any token sharing those first 8 characters; and the client responses of
both proxy routes (collection and by-id) do not depend on the cached
token at all, so no other modelled inbound endpoint carries token
material. -/
theorem claim_C9_token_masking :
    (∀ creds login dateParse (now : Int) st b,
      (getBearer creds login dateParse now st).result = .ok b →
      (debugAuth creds login dateParse now st).1 =
        .authOk (b.take 8 ++ "...")
          ((getBearer creds login dateParse now st).state.bearerExpiresAt)) ∧
    (∀ creds login dateParse (now E : Int) t1 t2,
      t1.take 8 = t2.take 8 → t1 ≠ "" → t2 ≠ "" → now < E - SKEW_MS →
      (debugAuth creds login dateParse now ⟨some t1, E⟩).1 =
        (debugAuth creds login dateParse now ⟨some t2, E⟩).1) ∧
    (∀ env creds r q enc (E : Int) t1 t2,
      t1 ≠ "" → t2 ≠ "" → env.now < E - SKEW_MS →
      (proxyCollection env creds ⟨some t1, E⟩ r q enc).1 =
        (proxyCollection env creds ⟨some t2, E⟩ r q enc).1) ∧
    (∀ env creds r i q enc (E : Int) t1 t2,
      t1 ≠ "" → t2 ≠ "" → env.now < E - SKEW_MS →
      (proxyById env creds ⟨some t1, E⟩ r i q enc).1 =
        (proxyById env creds ⟨some t2, E⟩ r i q enc).1) := by
  refine ⟨?_, ?_, ?_, ?_⟩
  · intro creds login dateParse now st b hb
    simp [debugAuth, hb]
  · intro creds login dateParse now E t1 t2 h8 h1 h2 hfresh
    rw [debugAuth, debugAuth,
      getBearer_hit creds login dateParse now t1 E h1 hfresh,
      getBearer_hit creds login dateParse now t2 E h2 hfresh]
    simp [h8]
  · intro env creds r q enc E t1 t2 h1 h2 hfresh
    by_cases hr : r ∈ ALLOW_LIST
    · rw [proxyCollection, proxyCollection,
        getBearer_hit creds env.login env.dateParse env.now t1 E h1 hfresh,
        getBearer_hit creds env.login env.dateParse env.now t2 E h2 hfresh]
      simp [hr]
    · simp [proxyCollection, hr]
  · intro env creds r i q enc E t1 t2 h1 h2 hfresh
    by_cases hr : r ∈ ALLOW_LIST
    · rw [proxyById, proxyById,
        getBearer_hit creds env.login env.dateParse env.now t1 E h1 hfresh,
        getBearer_hit creds env.login env.dateParse env.now t2 E h2 hfresh]
      simp [hr]
    · simp [proxyById, hr]

/-- Witness for C9: the /debug/auth preview of the concrete cached token
equals its first 8 characters plus the mask. -/
theorem claim_C9_witness :
    (debugAuth sampleCreds sampleLogin (fun _ => none) 0 hitState).1 =
      .authOk ("cachedtoken99".take 8 ++ "...")
        ((getBearer sampleCreds sampleLogin
          (fun _ => none) 0 hitState).state.bearerExpiresAt) :=
  claim_C9_token_masking.1 sampleCreds sampleLogin (fun _ => none) 0 hitState
    "cachedtoken99" (by decide)

/-- For a non-empty resource name, the candidate list starts with the
resource name itself, whatever the id and discovered entries. -/
theorem buildCandidateList_head (enc : String → String) (resource : String)
    (id : Option String) (discovered : List String) (hne : resource ≠ "") :
    ∃ tail, buildCandidateList enc resource id discovered = resource :: tail := by
  have hpb : (resource != "") = true := by simp [hne]
  rw [buildCandidateList, staticBase]
  simp only [List.cons_append, List.nil_append, List.filter_cons, hpb, if_true]
  simp only [dedupLoop, List.not_mem_nil, if_false]
  exact ⟨_, rfl⟩

/-- C10: for an allowed resource the candidate list is never empty and
its first element is the resource name itself; consequently neither
proxy route can return the "No upstream matched" fallback for an allowed
resource. -/
theorem claim_C10_nonempty_candidates (enc : String → String) (resource : String)
    (id : Option String) (discovered : List String) (hr : resource ∈ ALLOW_LIST) :
    (buildCandidateList enc resource id discovered).head? = some resource ∧
    buildCandidateList enc resource id discovered ≠ [] ∧
    (∀ env creds st q log,
      (proxyCollection env creds st resource q enc).1 ≠ .noUpstreamMatched log) ∧
    (∀ env creds st i q log,
      (proxyById env creds st resource i q enc).1 ≠ .noUpstreamMatched log) := by
  have hne : resource ≠ "" := by
    simp only [ALLOW_LIST, List.mem_cons, List.not_mem_nil, or_false] at hr
    rcases hr with rfl|rfl|rfl|rfl|rfl|rfl|rfl|rfl|rfl|rfl <;> decide
  obtain ⟨tail, htail⟩ := buildCandidateList_head enc resource id discovered hne
  refine ⟨by rw [htail]; rfl, by rw [htail]; simp, ?_, ?_⟩
  · intro env creds st q log
    obtain ⟨tl, htl⟩ := buildCandidateList_head enc resource none
      (if resource = "applicants" then env.discovered else []) hne
    simp only [proxyCollection, hr, if_true, ite_true]
    cases hgb : (getBearer creds env.login env.dateParse env.now st).result with
    | error e => simp
    | ok b =>
      cases hout : attemptLoop env.fetchFn (collectionAttempts env resource q enc)
          none [] [] with
      | success u rr lg fe => simp [assembleLoop, hout]
      | threw fe => simp [assembleLoop, hout]
      | exhausted fin lg fe =>
        cases fin with
        | some fr => simp [assembleLoop, hout]
        | none =>
          have hnil := (attemptLoop_exhausted_none env.fetchFn _ _ _ _ _ _ hout).1
          simp only [collectionAttempts, htl] at hnil
          simp at hnil
  · intro env creds st i q log
    obtain ⟨tl, htl⟩ := buildCandidateList_head enc resource (some i)
      (if resource = "applicants" then env.discovered else []) hne
    simp only [proxyById, hr, if_true, ite_true]
    cases hgb : (getBearer creds env.login env.dateParse env.now st).result with
    | error e => simp
    | ok b =>
      cases hout : attemptLoop env.fetchFn (byIdAttempts env resource i enc)
          none [] [] with
      | success u rr lg fe => simp [assembleLoop, hout]
      | threw fe => simp [assembleLoop, hout]
      | exhausted fin lg fe =>
        cases fin with
        | some fr => simp [assembleLoop, hout]
        | none =>
          have hnil := (attemptLoop_exhausted_none env.fetchFn _ _ _ _ _ _ hout).1
          simp only [byIdAttempts, htl] at hnil
          simp at hnil

/-- Witness for C10 at resource "jobs". -/
theorem claim_C10_witness :
    (buildCandidateList sampleEnc "jobs" none []).head? = some "jobs" ∧
    buildCandidateList sampleEnc "jobs" none [] ≠ [] ∧
    (proxyCollection envAllMiss sampleCreds hitState "jobs" [] sampleEnc).1 ≠
      .noUpstreamMatched [] := by
  have h := claim_C10_nonempty_candidates sampleEnc "jobs" none [] (by decide)
  exact ⟨h.1, h.2.1, h.2.2.1 envAllMiss sampleCreds hitState [] []⟩

end SmartSearch
